import Mathlib

/-!
Shallow embedding of the command-timing tool in `src/src/main.rs`.

The program parses CLI arguments (run count, JSON flag, wait flag, trailing
command), optionally blocks on a one-byte stdin read, spawns the command
`runs` times while measuring elapsed wall-clock time, computes the mean of
the elapsed times, reports either a structured (JSON) record or four
human-readable lines, and finally prints the processes whose lower-cased
name contains "riot" or "league".

Effects are modelled by an `Env` oracle: the outcome of each stdin/stdout
operation, the per-iteration spawn outcome (exit code or I/O error), the
per-iteration measured elapsed time, and the process snapshot.  Elapsed
times are exact rationals; the single f64 operation whose IEEE-754 special
behaviour matters to the claims (division, where 0.0/0.0 = NaN) is modelled
by `f64Div` on an `F64` type with explicit NaN/infinity values, rounding
abstracted away.
-/

namespace CmdTimer

/-- Raw command line as handed to argument resolution: the value supplied to
`-n`/`--runs` (if any), the two boolean flags, and the trailing command
tokens.  Mirrors the `clap` surface declared by `struct Args`. -/
structure RawArgs where
  runsStr : Option String
  json : Bool
  wait : Bool
  cmd : List String
deriving DecidableEq, Repr

/-- Resolved invocation parameters, mirroring `struct Args` in `main.rs`:
`runs : usize` (default 1), `json : bool`, `wait : bool`, `cmd : Vec<String>`
(required, hence non-empty). -/
structure Args where
  runs : Nat
  json : Bool
  wait : Bool
  cmd : List String
deriving DecidableEq, Repr

/-- Decimal digit value of a character, as recognised by Rust's
`usize::from_str`. -/
def digitVal (c : Char) : Option Nat :=
  if '0' ≤ c ∧ c ≤ '9' then some (c.toNat - '0'.toNat) else none

/-- Accumulate decimal digits left to right; fail on any non-digit.
Mirrors the digit loop of Rust's `from_str_radix` for base 10. -/
def parseDigitsAux : List Char → Nat → Option Nat
  | [], acc => some acc
  | c :: cs, acc =>
    match digitVal c with
    | none => none
    | some d => parseDigitsAux cs (acc * 10 + d)

/-- Rust `usize::from_str` (the parser `clap` uses for the `runs: usize`
field): an optional leading `+`, then a non-empty digit string, rejecting
values that overflow 64-bit `usize`. -/
def parseUsize (s : String) : Option Nat :=
  let cs :=
    match s.data with
    | '+' :: rest => rest
    | cs => cs
  match cs with
  | [] => none
  | _ =>
    match parseDigitsAux cs 0 with
    | none => none
    | some n => if n < 2 ^ 64 then some n else none

/-- Argument resolution, from the `clap` attributes on `struct Args`:
`runs` defaults to 1 and must parse as a `usize`; the trailing command is
`required = true`, so an empty command list is a usage error.  Any failure
is reported before any command execution. -/
def resolveArgs (raw : RawArgs) : Except String Args :=
  match raw.runsStr with
  | none =>
    if raw.cmd.isEmpty then .error "usage: missing command"
    else .ok ⟨1, raw.json, raw.wait, raw.cmd⟩
  | some s =>
    match parseUsize s with
    | none => .error "usage: invalid value for runs"
    | some n =>
      if raw.cmd.isEmpty then .error "usage: missing command"
      else .ok ⟨n, raw.json, raw.wait, raw.cmd⟩

/-- One OS process entry of the snapshot: pid, name, CPU usage, resident
memory in KiB — the fields read by the snapshot loop in `main`. -/
structure Proc where
  pid : Nat
  name : String
  cpu : ℚ
  mem : Nat
deriving DecidableEq, Repr

/-- The effect oracle for one program execution: outcomes of the wait-gate
stdout flush and one-byte stdin read, the spawn outcome of iteration `i`
(`.ok code` with `code = status.code()`, or `.error` for a spawn/wait I/O
failure), the elapsed time measured in iteration `i`, and the process
snapshot taken at the end. -/
structure Env where
  stdoutFlush : Except String Unit
  stdinRead : Except String Nat
  spawn : Nat → Except String (Option Int)
  elapsed : Nat → ℚ
  procs : List Proc

/-- Model of `wait_for_enter_if_requested`: when `wait` is set, flush the
prompt and call `read` on a one-byte buffer, propagating either failure as
a fatal error; the byte count returned by a successful read is discarded
(`let _ = ...`), so a zero-byte end-of-input return opens the gate just
like a one-byte read; otherwise do nothing. -/
def waitGate (env : Env) (wait : Bool) : Except String Unit :=
  if wait then
    match env.stdoutFlush with
    | .error e => .error e
    | .ok _ =>
      match env.stdinRead with
      | .error e => .error e
      | .ok _ => .ok ()
  else .ok ()

/-- The loop `for _ in 0..runs` of `main`, with the accumulated `times`
vector and `last_code` passed explicitly: iteration `i` spawns the command
(aborting the whole loop on error via `?`), then pushes the elapsed time
and overwrites the last exit code. -/
def loopFrom (spawn : Nat → Except String (Option Int)) (elapsed : Nat → ℚ)
    (times : List ℚ) (last : Option Int) : Nat → Nat → Except String (List ℚ × Option Int)
  | _, 0 => .ok (times, last)
  | i, Nat.succ n =>
    match spawn i with
    | .error e => .error e
    | .ok code => loopFrom spawn elapsed (times ++ [elapsed i]) code (i + 1) n

/-- The complete execution loop starting from the empty `times` vector and
`last_code = None`. -/
def execLoop (env : Env) (runs : Nat) : Except String (List ℚ × Option Int) :=
  loopFrom env.spawn env.elapsed [] none 0 runs

/-- Exact model of IEEE-754 `f64` values as far as the claims need them:
finite values are exact rationals (rounding abstracted), plus NaN and the
signed infinities produced by division by zero. -/
inductive F64 where
  | nan
  | inf (pos : Bool)
  | fin (q : ℚ)
deriving DecidableEq, Repr

/-- IEEE-754 `f64` division on exact finite operands: `0.0 / 0.0` is NaN,
`x / 0.0` for `x ≠ 0` is a signed infinity, otherwise the exact quotient. -/
def f64Div (a b : ℚ) : F64 :=
  if b = 0 then (if a = 0 then .nan else .inf (0 < a)) else .fin (a / b)

/-- Sum of the times vector, `times.iter().sum::<f64>()`: a left fold of
addition starting at 0. -/
def qsum (ts : List ℚ) : ℚ := ts.foldl (· + ·) 0

/-- Mean computation of line 78 of `main.rs`, namely
`times.iter().sum::<f64>() / times.len() as f64`: the division is
unguarded, so an empty `times` gives `0.0 / 0.0`. -/
def meanOf (ts : List ℚ) : F64 := f64Div (qsum ts) (ts.length : ℚ)

/-- Mirror of `struct RunResult`: the record serialized in JSON mode. -/
structure RunResult where
  exit_code : Option Int
  times : List ℚ
  mean : F64
deriving DecidableEq, Repr

/-- What the reporting step prints: either the structured `RunResult`
record, or the four human-readable lines (exit code, run count, times,
mean). -/
inductive Output where
  | structured (r : RunResult)
  | human (exitCode : Option Int) (runs : Nat) (times : List ℚ) (mean : F64)
deriving DecidableEq, Repr

/-- The underlying values a report carries: last exit code, the times
sequence, and the mean. -/
def Output.values : Output → Option Int × List ℚ × F64
  | .structured r => (r.exit_code, r.times, r.mean)
  | .human c _ t m => (c, t, m)

/-- Lines 78–88 of `main`: compute the mean and emit either the structured
record or the human-readable lines, both built from the same `last_code`,
`times` and `mean`. -/
def buildOutput (json : Bool) (runs : Nat) (last : Option Int) (times : List ℚ) : Output :=
  let mean := meanOf times
  if json then .structured ⟨last, times, mean⟩
  else .human last runs times mean

/-- Whether the pattern is an initial segment of the string
(character-by-character match). -/
def startsWithList : List Char → List Char → Bool
  | [], _ => true
  | _ :: _, [] => false
  | a :: as, b :: bs => a == b && startsWithList as bs

/-- Rust `str::contains` for a literal pattern: the pattern occurs as a
contiguous substring of the string. -/
def containsSub (pat : List Char) : List Char → Bool
  | [] => pat.isEmpty
  | c :: cs => startsWithList pat (c :: cs) || containsSub pat cs

/-- Rust `to_ascii_lowercase` on one character: map `A`–`Z` to `a`–`z`,
leave everything else unchanged. -/
def asciiLowerChar (c : Char) : Char :=
  if 'A' ≤ c ∧ c ≤ 'Z' then Char.ofNat (c.toNat + 32) else c

/-- Rust `str::to_ascii_lowercase`. -/
def asciiLower (s : String) : List Char := s.data.map asciiLowerChar

/-- The snapshot filter condition (lines 95–96 of `main`): the
lower-cased name contains `"riot"` or `"league"`. -/
def nameMatches (name : String) : Bool :=
  containsSub "riot".data (asciiLower name) || containsSub "league".data (asciiLower name)

/-- The process entries printed by the snapshot section: those whose name
passes `nameMatches`, in enumeration order. -/
def snapshotFiltered (procs : List Proc) : List Proc :=
  procs.filter (fun p => nameMatches p.name)

/-- Final outcome of one program execution: a usage error from argument
resolution, a fatal I/O / spawn error (non-zero exit, nothing reported), or
normal completion carrying the report and the printed snapshot entries. -/
inductive ProgResult where
  | usageError (msg : String)
  | fatal (msg : String)
  | done (out : Output) (snapshot : List Proc)
deriving DecidableEq, Repr

/-- Model of `main`: resolve arguments, run the wait gate, run the timed
loop (propagating any fatal error), then build the report and the snapshot
section. -/
def mainRun (env : Env) (raw : RawArgs) : ProgResult :=
  match resolveArgs raw with
  | .error e => .usageError e
  | .ok args =>
    match waitGate env args.wait with
    | .error e => .fatal e
    | .ok _ =>
      match execLoop env args.runs with
      | .error e => .fatal e
      | .ok (times, last) =>
        .done (buildOutput args.json args.runs last times) (snapshotFiltered env.procs)

/-- Observable events of one execution, in program order: the wait-gate
prompt write, the return of the one-byte stdin read call carrying the
number of bytes actually read (1 normally, 0 at end of input), and per
iteration the monotonic start timestamp, the child spawn, and the per-run
progress print. -/
inductive Event where
  | promptWrite
  | readReturned (n : Nat)
  | timerStart (i : Nat)
  | spawnChild (i : Nat)
  | runPrinted (i : Nat)
deriving DecidableEq, Repr

/-- Events of the wait gate: the prompt is written first; when the
one-byte read call returns successfully its event records how many bytes
were read, which is 0 when stdin is at end of input. -/
def waitTrace (env : Env) (wait : Bool) : List Event :=
  if wait then
    match env.stdoutFlush with
    | .error _ => [.promptWrite]
    | .ok _ =>
      match env.stdinRead with
      | .error _ => [.promptWrite]
      | .ok n => [.promptWrite, .readReturned n]
  else []

/-- Events of the run loop from iteration `i` with `n` iterations left:
each iteration records its start timestamp, then attempts the spawn; a
spawn/wait failure aborts the loop with no further events. -/
def loopTraceFrom (env : Env) : Nat → Nat → List Event
  | _, 0 => []
  | i, Nat.succ n =>
    Event.timerStart i :: Event.spawnChild i ::
      match env.spawn i with
      | .error _ => []
      | .ok _ => Event.runPrinted i :: loopTraceFrom env (i + 1) n

/-- Event trace of `main` after argument resolution: the wait gate's
events, then (only if the gate succeeded) the loop's events. -/
def mainTrace (env : Env) (args : Args) : List Event :=
  waitTrace env args.wait ++
    match waitGate env args.wait with
    | .error _ => []
    | .ok _ => loopTraceFrom env 0 args.runs

/-- Event trace of the whole program: empty when argument resolution fails,
since a usage error precedes any execution. -/
def programTrace (env : Env) (raw : RawArgs) : List Event :=
  match resolveArgs raw with
  | .error _ => []
  | .ok args => mainTrace env args

/-- A fully successful environment: every spawn exits with code 0 and every
measured elapsed time is 1 second; no processes are running. -/
def okEnv : Env where
  stdoutFlush := .ok ()
  stdinRead := .ok 1
  spawn := fun _ => .ok (some 0)
  elapsed := fun _ => 1
  procs := []

/-- An environment whose iteration `i` exits with code `i`, to exercise the
last-exit-code overwrite. -/
def envVar : Env where
  stdoutFlush := .ok ()
  stdinRead := .ok 1
  spawn := fun i => .ok (some i)
  elapsed := fun _ => 1
  procs := []

/-- An environment whose second iteration (index 1) fails to spawn. -/
def failEnv : Env where
  stdoutFlush := .ok ()
  stdinRead := .ok 1
  spawn := fun i => if i = 1 then .error "boom" else .ok (some 0)
  elapsed := fun _ => 1
  procs := []

/-- An environment whose stdin is at end of input: the one-byte read call
returns successfully having read zero bytes. -/
def eofEnv : Env where
  stdoutFlush := .ok ()
  stdinRead := .ok 0
  spawn := fun _ => .ok (some 0)
  elapsed := fun _ => 1
  procs := []

/-- A raw command line supplying a run count of 0. -/
def rawZero : RawArgs := ⟨some "0", true, false, ["true"]⟩

/-- A raw command line supplying a non-numeric run count. -/
def rawBad : RawArgs := ⟨some "abc", false, false, ["true"]⟩

/-- A raw command line with an empty trailing command. -/
def rawEmpty : RawArgs := ⟨none, false, false, []⟩

/-- A raw command line requesting three runs. -/
def rawThree : RawArgs := ⟨some "3", false, false, ["x"]⟩

/-- Resolved arguments with the wait gate engaged and a single run. -/
def argsWait : Args := ⟨1, false, true, ["x"]⟩

/-- The fabricated process list of the spec's filtering property: names
RiotClientServices, LeagueClient and notepad. -/
def demoProcs : List Proc :=
  [⟨10, "RiotClientServices", 1, 100⟩, ⟨11, "LeagueClient", 2, 200⟩, ⟨12, "notepad", 3, 300⟩]

/-- The run loop only ever appends to the times vector: a completed loop of
`n` iterations adds exactly `n` elements. -/
theorem loopFrom_length (spawn : Nat → Except String (Option Int)) (elapsed : Nat → ℚ) :
    ∀ (n i : Nat) (ts : List ℚ) (l : Option Int) (ts' : List ℚ) (l' : Option Int),
      loopFrom spawn elapsed ts l i n = .ok (ts', l') → ts'.length = ts.length + n := by
  intro n
  induction n with
  | zero =>
    intro i ts l ts' l' h
    simp only [loopFrom, Except.ok.injEq, Prod.mk.injEq] at h
    simp [← h.1]
  | succ m ih =>
    intro i ts l ts' l' h
    simp only [loopFrom] at h
    cases hs : spawn i with
    | error e => rw [hs] at h; exact absurd h (by simp)
    | ok c =>
      rw [hs] at h
      have := ih (i + 1) (ts ++ [elapsed i]) c ts' l' h
      simp at this
      omega

/-- A completed loop of `n + 1` iterations starting at index `i` got its
final exit code from the spawn of index `i + n`. -/
theorem loopFrom_last (spawn : Nat → Except String (Option Int)) (elapsed : Nat → ℚ) :
    ∀ (n i : Nat) (ts : List ℚ) (l : Option Int) (ts' : List ℚ) (l' : Option Int),
      loopFrom spawn elapsed ts l i (n + 1) = .ok (ts', l') → spawn (i + n) = .ok l' := by
  intro n
  induction n with
  | zero =>
    intro i ts l ts' l' h
    simp only [loopFrom] at h
    cases hs : spawn i with
    | error e => rw [hs] at h; exact absurd h (by simp)
    | ok c =>
      rw [hs] at h
      simp only [loopFrom, Except.ok.injEq, Prod.mk.injEq] at h
      rw [Nat.add_zero, hs, h.2]
  | succ m ih =>
    intro i ts l ts' l' h
    simp only [loopFrom] at h
    cases hs : spawn i with
    | error e => rw [hs] at h; exact absurd h (by simp)
    | ok c =>
      rw [hs] at h
      have := ih (i + 1) (ts ++ [elapsed i]) c ts' l' h
      have heq : i + (m + 1) = i + 1 + m := by omega
      rw [heq]
      exact this

/-- If some iteration in range fails to spawn and all earlier iterations
succeed, the loop aborts with exactly that error. -/
theorem loopFrom_aborts (spawn : Nat → Except String (Option Int)) (elapsed : Nat → ℚ) :
    ∀ (n b : Nat) (ts : List ℚ) (l : Option Int) (i : Nat) (e : String),
      b ≤ i → i < b + n → spawn i = .error e →
      (∀ j, b ≤ j → j < i → ∃ c, spawn j = .ok c) →
      loopFrom spawn elapsed ts l b n = .error e := by
  intro n
  induction n with
  | zero => intro b ts l i e h1 h2 _ _; omega
  | succ m ih =>
    intro b ts l i e h1 h2 herr hok
    rcases Nat.eq_or_lt_of_le h1 with rfl | hlt
    · simp [loopFrom, herr]
    · obtain ⟨c, hc⟩ := hok b le_rfl hlt
      simp only [loopFrom, hc]
      exact ih (b + 1) _ c i e hlt (by omega) herr (fun j hj1 hj2 => hok j (by omega) hj2)

/-- No stdin-read event ever appears among the loop's events. -/
theorem stdin_notin_loopTrace (env : Env) :
    ∀ (n b k : Nat), Event.readReturned k ∉ loopTraceFrom env b n := by
  intro n
  induction n with
  | zero => intro b k; simp [loopTraceFrom]
  | succ m ih =>
    intro b k
    cases hs : env.spawn b with
    | error e => simp [loopTraceFrom, hs]
    | ok c =>
      simp [loopTraceFrom, hs]
      exact ih (b + 1) k

/-- Every event of the wait gate is the prompt write or the return of the
stdin read call. -/
theorem waitTrace_events (env : Env) (w : Bool) :
    ∀ ev ∈ waitTrace env w, ev = Event.promptWrite ∨ ∃ k, ev = Event.readReturned k := by
  intro ev h
  cases w with
  | false => simp [waitTrace] at h
  | true =>
    revert h
    simp only [waitTrace, if_pos]
    cases env.stdoutFlush with
    | error e => intro h; simp at h; tauto
    | ok u =>
      cases env.stdinRead with
      | error e => intro h; simp at h; tauto
      | ok k => intro h; simp at h; tauto

/-- A spawn event for index `k` in the loop's events means `k` is in range
and every earlier iteration's spawn succeeded. -/
theorem spawnChild_mem_loopTrace (env : Env) :
    ∀ (n b k : Nat), Event.spawnChild k ∈ loopTraceFrom env b n →
      b ≤ k ∧ k < b + n ∧ ∀ j, b ≤ j → j < k → ∃ c, env.spawn j = .ok c := by
  intro n
  induction n with
  | zero => intro b k h; simp [loopTraceFrom] at h
  | succ m ih =>
    intro b k h
    cases hs : env.spawn b with
    | error e =>
      simp [loopTraceFrom, hs] at h
      refine ⟨by omega, by omega, ?_⟩
      intro j hj1 hj2
      omega
    | ok c =>
      simp only [loopTraceFrom, hs, List.mem_cons] at h
      rcases h with h | h | h | h
      · exact absurd h (by simp)
      · have hk : k = b := by simpa using h
        refine ⟨by omega, by omega, ?_⟩
        intro j hj1 hj2
        omega
      · exact absurd h (by simp)
      · obtain ⟨h1, h2, h3⟩ := ih (b + 1) k h
        refine ⟨by omega, by omega, ?_⟩
        intro j hj1 hj2
        rcases Nat.eq_or_lt_of_le hj1 with rfl | hjlt
        · exact ⟨c, hs⟩
        · exact h3 j (by omega) hj2

/-- Conversely, if `k` is in range and every earlier iteration's spawn
succeeded, the spawn event for index `k` does appear. -/
theorem spawnChild_mem_of (env : Env) :
    ∀ (n b k : Nat), b ≤ k → k < b + n →
      (∀ j, b ≤ j → j < k → ∃ c, env.spawn j = .ok c) →
      Event.spawnChild k ∈ loopTraceFrom env b n := by
  intro n
  induction n with
  | zero => intro b k h1 h2 _; omega
  | succ m ih =>
    intro b k h1 h2 hok
    rcases Nat.eq_or_lt_of_le h1 with rfl | hlt
    · simp [loopTraceFrom]
    · obtain ⟨c, hc⟩ := hok b le_rfl hlt
      simp only [loopTraceFrom, hc, List.mem_cons]
      right; right; right
      exact ih (b + 1) k hlt (by omega) (fun j hj1 hj2 => hok j (by omega) hj2)

/-- The loop never spawns the same iteration index twice: its events
contain any given spawn event at most once. -/
theorem spawnChild_count_le_one (env : Env) :
    ∀ (n b k : Nat), (loopTraceFrom env b n).count (Event.spawnChild k) ≤ 1 := by
  intro n
  induction n with
  | zero => intro b k; simp [loopTraceFrom]
  | succ m ih =>
    intro b k
    by_cases hk : k = b
    · subst hk
      cases hs : env.spawn k with
      | error e => simp [loopTraceFrom, hs, List.count_cons]
      | ok c =>
        have hnot : Event.spawnChild k ∉ loopTraceFrom env (k + 1) m := by
          intro hmem
          have := spawnChild_mem_loopTrace env m (k + 1) k hmem
          omega
        simp [loopTraceFrom, hs, List.count_cons, List.count_eq_zero.mpr hnot]
    · cases hs : env.spawn b with
      | error e => simp [loopTraceFrom, hs, List.count_cons, hk]
      | ok c =>
        simp [loopTraceFrom, hs, List.count_cons, hk]
        exact ih (b + 1) k

/-- Prefix test in terms of list structure. -/
theorem startsWithList_iff (p : List Char) :
    ∀ s, startsWithList p s = true ↔ ∃ r, s = p ++ r := by
  induction p with
  | nil => intro s; simp [startsWithList]
  | cons a as ih =>
    intro s
    cases s with
    | nil =>
      simp [startsWithList]
    | cons b bs =>
      simp only [startsWithList, Bool.and_eq_true, beq_iff_eq, ih bs]
      constructor
      · rintro ⟨rfl, r, rfl⟩
        exact ⟨r, rfl⟩
      · rintro ⟨r, hr⟩
        rw [List.cons_append] at hr
        injection hr with h1 h2
        exact ⟨h1.symm, r, h2⟩

/-- Substring test in terms of list structure: the pattern occurs between
two (possibly empty) surrounding segments. -/
theorem containsSub_iff (p : List Char) :
    ∀ s, containsSub p s = true ↔ ∃ l r, s = l ++ p ++ r := by
  intro s
  induction s with
  | nil =>
    simp only [containsSub, List.isEmpty_iff]
    constructor
    · rintro rfl; exact ⟨[], [], rfl⟩
    · rintro ⟨l, r, h⟩
      rcases List.append_eq_nil.mp (List.append_eq_nil.mp h.symm).1 with ⟨-, hp⟩
      exact hp
  | cons c cs ih =>
    simp only [containsSub, Bool.or_eq_true, startsWithList_iff, ih]
    constructor
    · rintro (⟨r, hr⟩ | ⟨l, r, hr⟩)
      · exact ⟨[], r, by simpa using hr⟩
      · exact ⟨c :: l, r, by simp [hr]⟩
    · rintro ⟨l, r, hr⟩
      cases l with
      | nil => exact Or.inl ⟨r, by simpa using hr⟩
      | cons x xs =>
        right
        rw [List.cons_append, List.cons_append] at hr
        injection hr with h1 h2
        exact ⟨xs, r, h2⟩

/-- C1 (counterexample): the claim says a run count of 0 is rejected by
argument resolution, but resolving a command line with runs given as the
string 0 succeeds, producing runs equal to 0. -/
theorem c1_cex_zero_run_count_accepted :
    resolveArgs rawZero = .ok ⟨0, true, false, ["true"]⟩ := by
  rfl

/-- C1 (amended): argument resolution fails immediately with a usage error,
before any command execution, whenever the supplied run count is not a
valid unsigned integer; a run count of 0, however, is parsed successfully
and accepted. -/
theorem c1_invalid_runs_usage_error (env : Env) (raw : RawArgs) :
    (∀ s, raw.runsStr = some s → parseUsize s = none →
      (∃ e, mainRun env raw = .usageError e) ∧ programTrace env raw = []) ∧
    (raw.runsStr = some "0" → raw.cmd ≠ [] →
      resolveArgs raw = .ok ⟨0, raw.json, raw.wait, raw.cmd⟩) := by
  constructor
  · intro s hs hp
    have hres : resolveArgs raw = .error "usage: invalid value for runs" := by
      simp [resolveArgs, hs, hp]
    exact ⟨⟨"usage: invalid value for runs", by simp [mainRun, hres]⟩,
      by simp [programTrace, hres]⟩
  · intro h0 hc
    have hz : parseUsize "0" = some 0 := by decide
    cases hcm : raw.cmd with
    | nil => exact absurd hcm hc
    | cons a as => simp [resolveArgs, h0, hz, hcm]

/-- C1 (witness): a non-numeric run count string is a usage error and no
execution event occurs. -/
theorem c1_invalid_runs_witness :
    (∃ e, mainRun okEnv rawBad = .usageError e) ∧ programTrace okEnv rawBad = [] :=
  (c1_invalid_runs_usage_error okEnv rawBad).1 "abc" rfl (by decide)

/-- C2: whenever the execution loop completes without a fatal error for a
run count of at least 1, the times sequence has exactly as many elements as
the run count. -/
theorem c2_times_length_eq_runs (env : Env) (runs : Nat) (times : List ℚ) (last : Option Int)
    (hruns : 1 ≤ runs) (h : execLoop env runs = .ok (times, last)) :
    times.length = runs := by
  have := loopFrom_length env.spawn env.elapsed runs 0 [] none times last h
  simpa using this

/-- C2 (witness): three successful runs produce a times sequence of length
three. -/
theorem c2_times_length_witness : ([(1 : ℚ), 1, 1]).length = 3 :=
  c2_times_length_eq_runs okEnv 3 [1, 1, 1] (some 0) (by norm_num) rfl

/-- C3: the reported mean (in either output mode) is the sum of the times
divided by their count, and for a single run it equals the single recorded
time exactly. -/
theorem c3_mean_is_average (json : Bool) (runs : Nat) (last : Option Int) (times : List ℚ)
    (h : 1 ≤ times.length) :
    (buildOutput json runs last times).values.2.2
        = F64.fin (qsum times / (times.length : ℚ)) ∧
    ∀ t, times = [t] → (buildOutput json runs last times).values.2.2 = F64.fin t := by
  have hv : (buildOutput json runs last times).values.2.2 = meanOf times := by
    cases json <;> simp [buildOutput, Output.values]
  have hne : ((times.length : ℚ)) ≠ 0 := by
    have hl : times.length ≠ 0 := by omega
    exact_mod_cast hl
  constructor
  · rw [hv]
    simp [meanOf, f64Div, hne]
  · intro t ht
    subst ht
    rw [hv]
    simp [meanOf, qsum, f64Div]

/-- C3 (witness): for the single recorded time 2, the reported mean is
exactly 2. -/
theorem c3_mean_witness : (buildOutput true 1 none [(2 : ℚ)]).values.2.2 = F64.fin 2 :=
  (c3_mean_is_average true 1 none [2] (by norm_num)).2 2 rfl

/-- C4: when the execution loop completes for a run count of at least 1,
the recorded last exit code is exactly the exit status returned by the
final iteration's spawn, whatever the earlier iterations returned. -/
theorem c4_last_code_is_final (env : Env) (runs : Nat) (times : List ℚ) (last : Option Int)
    (hruns : 1 ≤ runs) (h : execLoop env runs = .ok (times, last)) :
    env.spawn (runs - 1) = .ok last := by
  obtain ⟨m, rfl⟩ : ∃ m, runs = m + 1 := ⟨runs - 1, by omega⟩
  have := loopFrom_last env.spawn env.elapsed m 0 [] none times last h
  simpa using this

/-- C4 (witness): with per-iteration exit codes 0, 1, 2, the loop records
code 2, the final iteration's status. -/
theorem c4_last_code_witness : envVar.spawn 2 = .ok (some 2) :=
  c4_last_code_is_final envVar 3 [1, 1, 1] (some 2) (by norm_num) rfl

/-- C5: if some iteration's spawn fails (all earlier ones succeeding), the
whole program ends in that fatal error: no report and no snapshot are
produced, the failing iteration is attempted exactly once (no retry), and
no later iteration is ever spawned. -/
theorem c5_spawn_failure_aborts (env : Env) (raw : RawArgs) (args : Args) (i : Nat) (e : String)
    (hres : resolveArgs raw = .ok args)
    (hwait : waitGate env args.wait = .ok ())
    (hi : i < args.runs)
    (herr : env.spawn i = .error e)
    (hok : ∀ j, j < i → ∃ c, env.spawn j = .ok c) :
    mainRun env raw = .fatal e ∧
    (mainTrace env args).count (Event.spawnChild i) = 1 ∧
    ∀ k, i < k → Event.spawnChild k ∉ mainTrace env args := by
  have hloop : execLoop env args.runs = .error e :=
    loopFrom_aborts env.spawn env.elapsed args.runs 0 [] none i e (Nat.zero_le i) (by omega)
      herr (fun j _ hj => hok j hj)
  have htr : mainTrace env args = waitTrace env args.wait ++ loopTraceFrom env 0 args.runs := by
    simp [mainTrace, hwait]
  refine ⟨?_, ?_, ?_⟩
  · simp [mainRun, hres, hwait, hloop]
  · rw [htr, List.count_append]
    have h0 : (waitTrace env args.wait).count (Event.spawnChild i) = 0 := by
      rw [List.count_eq_zero]
      intro hmem
      rcases waitTrace_events env args.wait _ hmem with h | h <;> exact absurd h (by simp)
    have hmem : Event.spawnChild i ∈ loopTraceFrom env 0 args.runs :=
      spawnChild_mem_of env args.runs 0 i (Nat.zero_le i) (by omega) (fun j _ hj => hok j hj)
    have hle := spawnChild_count_le_one env args.runs 0 i
    have hpos : 0 < (loopTraceFrom env 0 args.runs).count (Event.spawnChild i) :=
      List.count_pos_iff.mpr hmem
    omega
  · intro k hk hmem
    rw [htr, List.mem_append] at hmem
    rcases hmem with hmem | hmem
    · rcases waitTrace_events env args.wait _ hmem with h | h <;> exact absurd h (by simp)
    · obtain ⟨-, -, hall⟩ := spawnChild_mem_loopTrace env args.runs 0 k hmem
      obtain ⟨c, hc⟩ := hall i (Nat.zero_le i) hk
      rw [herr] at hc
      exact absurd hc (by simp)

/-- C5 (witness): with the second of three iterations failing to spawn, the
program ends fatally with that error. -/
theorem c5_spawn_failure_witness : mainRun failEnv rawThree = .fatal "boom" :=
  (c5_spawn_failure_aborts failEnv rawThree ⟨3, false, false, ["x"]⟩ 1 "boom" rfl rfl
    (by norm_num) rfl
    (fun j hj => ⟨some 0, by have hj0 : j = 0 := by omega
                             subst hj0; rfl⟩)).1

/-- C6: a process entry is selected by the snapshot filter exactly when its
ASCII-lower-cased name contains the substring riot or the substring league;
on the fabricated list RiotClientServices, LeagueClient, notepad, exactly
the first two are selected. -/
theorem c6_snapshot_filter :
    (∀ (procs : List Proc) (p : Proc),
      p ∈ snapshotFiltered procs ↔
        p ∈ procs ∧
          ((∃ l r, asciiLower p.name = l ++ "riot".data ++ r) ∨
           (∃ l r, asciiLower p.name = l ++ "league".data ++ r))) ∧
    (snapshotFiltered demoProcs).map Proc.name = ["RiotClientServices", "LeagueClient"] := by
  constructor
  · intro procs p
    simp only [snapshotFiltered, List.mem_filter, nameMatches, Bool.or_eq_true, containsSub_iff]
  · decide

/-- C7: an empty command list is a usage error: the program reports it and
produces no execution event at all (no timing, no spawn). -/
theorem c7_empty_cmd_usage_error (env : Env) (raw : RawArgs) (h : raw.cmd = []) :
    (∃ e, mainRun env raw = .usageError e) ∧ programTrace env raw = [] := by
  have hres : ∃ e, resolveArgs raw = .error e := by
    cases hr : raw.runsStr with
    | none => exact ⟨"usage: missing command", by simp [resolveArgs, hr, h]⟩
    | some s =>
      cases hp : parseUsize s with
      | none => exact ⟨"usage: invalid value for runs", by simp [resolveArgs, hr, hp]⟩
      | some n => exact ⟨"usage: missing command", by simp [resolveArgs, hr, hp, h]⟩
  obtain ⟨e, he⟩ := hres
  exact ⟨⟨e, by simp [mainRun, he]⟩, by simp [programTrace, he]⟩

/-- C7 (witness): the concrete empty command line is a usage error with an
empty program trace. -/
theorem c7_empty_cmd_witness :
    (∃ e, mainRun okEnv rawEmpty = .usageError e) ∧ programTrace okEnv rawEmpty = [] :=
  c7_empty_cmd_usage_error okEnv rawEmpty rfl

/-- C8 (counterexample): the claim says that with the wait flag set no
timing measurement is taken and no child is spawned until exactly one byte
has been read from stdin; but with stdin at end of input the read call
returns having read zero bytes, the gate opens anyway, and a timer start
and a child spawn occur although no byte was ever read. -/
theorem c8_cex_eof_gate_opens :
    argsWait.wait = true ∧
    (mainTrace eofEnv argsWait).get? 2 = some (Event.timerStart 0) ∧
    (mainTrace eofEnv argsWait).get? 3 = some (Event.spawnChild 0) ∧
    Event.readReturned 1 ∉ mainTrace eofEnv argsWait ∧
    Event.readReturned 0 ∈ mainTrace eofEnv argsWait := by
  exact ⟨rfl, by decide, by decide, by decide, by decide⟩

/-- C8 (amended): with the wait flag unset, stdin is never read and the
wait gate is a no-op; with the wait flag set, every timer-start and every
child-spawn event is strictly preceded in the program's event order by the
return of the one-byte stdin read call — which reads exactly one byte
except at end of input, where it returns having read zero bytes and the
gate opens anyway. -/
theorem c8_wait_gate_ordering (env : Env) (args : Args) :
    (args.wait = false →
      (∀ k, Event.readReturned k ∉ mainTrace env args) ∧ waitGate env args.wait = .ok ()) ∧
    (args.wait = true →
      ∀ n i, ((mainTrace env args).get? n = some (Event.timerStart i) ∨
              (mainTrace env args).get? n = some (Event.spawnChild i)) →
        ∃ m k, m < n ∧ (mainTrace env args).get? m = some (Event.readReturned k)) := by
  constructor
  · intro hw
    refine ⟨?_, by simp [waitGate, hw]⟩
    intro k
    have htr : mainTrace env args = loopTraceFrom env 0 args.runs := by
      simp [mainTrace, waitTrace, waitGate, hw]
    rw [htr]
    exact stdin_notin_loopTrace env args.runs 0 k
  · intro hw n i h
    cases hf : env.stdoutFlush with
    | error e1 =>
      have htr : mainTrace env args = [Event.promptWrite] := by
        simp [mainTrace, waitTrace, waitGate, hw, hf]
      rw [htr] at h
      rcases h with h | h <;> · rcases n with _ | n <;> simp at h
    | ok u =>
      cases hr : env.stdinRead with
      | error e2 =>
        have htr : mainTrace env args = [Event.promptWrite] := by
          simp [mainTrace, waitTrace, waitGate, hw, hf, hr]
        rw [htr] at h
        rcases h with h | h <;> · rcases n with _ | n <;> simp at h
      | ok k0 =>
        have htr : mainTrace env args
            = Event.promptWrite :: Event.readReturned k0 :: loopTraceFrom env 0 args.runs := by
          simp [mainTrace, waitTrace, waitGate, hw, hf, hr]
        rw [htr] at h
        rcases n with _ | _ | m
        · rcases h with h | h <;> simp at h
        · rcases h with h | h <;> simp at h
        · exact ⟨1, k0, by omega, by rw [htr]; rfl⟩

/-- C8 (witness): in a run with the wait gate engaged, the first timer
start (at trace position 2) is preceded by the return of the stdin read
call. -/
theorem c8_wait_gate_witness :
    ∃ m k, m < 2 ∧ (mainTrace okEnv argsWait).get? m = some (Event.readReturned k) :=
  (c8_wait_gate_ordering okEnv argsWait).2 rfl 2 0 (Or.inl (by decide))

/-- C9: for the same completed loop data, structured mode and
human-readable mode carry identical underlying values: same last exit code,
same times sequence, same mean. -/
theorem c9_output_modes_agree (runs : Nat) (last : Option Int) (times : List ℚ) :
    (buildOutput true runs last times).values = (buildOutput false runs last times).values := by
  simp [buildOutput, Output.values]

/-- C10: a run count of 0 is accepted by argument parsing; the loop then
runs zero times, the times sequence is empty, and the unguarded division
0.0 divided by 0 makes the reported mean NaN instead of an error. -/
theorem c10_zero_runs_nan_mean :
    parseUsize "0" = some 0 ∧
    resolveArgs rawZero = .ok ⟨0, true, false, ["true"]⟩ ∧
    (∀ env, execLoop env 0 = .ok ([], none)) ∧
    meanOf [] = F64.nan ∧
    mainRun okEnv rawZero = .done (.structured ⟨none, [], F64.nan⟩) [] := by
  exact ⟨by decide, by rfl, fun env => rfl, by decide, by decide⟩

end CmdTimer
